import Mathlib

/-!
A formal model of the leibniz type-testing library.

The library encodes relations between TypeScript types (equality, subtyping,
strict subtyping, supertyping, disjointness) as proof types whose inhabitation
is decided by the host type checker.  We model a representative fragment of
TypeScript's structural type system (primitive types, literal types, `never`,
`unknown`, union types and function types), its assignability relation, the
conditional types used by `Propositions.ts` and `Proofs.ts` (including
distribution of a conditional type over a union in its checked naked type
parameter, and the special evaluation of a conditional at `never`), and the
inhabitation of the derived relation proof types from `Proofs.ts`.
The runtime (value-level) functions of `Leibniz.ts` are modelled separately,
after TypeScript's type erasure.
-/

namespace LeibnizTS

/-- A fragment of TypeScript's types: the primitives `number`, `string`,
the boolean literal types `true` and `false` (TypeScript's `boolean` is the
union of the two), `never`, `unknown`, numeric literal types, union types and
single-parameter arrow function types. -/
inductive Ty : Type where
  | num
  | str
  | tru
  | fls
  | never
  | unknown
  | numLit (n : Nat)
  | union (a b : Ty)
  | fn (dom cod : Ty)
  deriving DecidableEq, Repr

/-- Size of a type term, used as recursion fuel for assignability. -/
def sz : Ty → Nat
  | .num => 1
  | .str => 1
  | .tru => 1
  | .fls => 1
  | .never => 1
  | .unknown => 1
  | .numLit _ => 1
  | .union a b => sz a + sz b + 1
  | .fn a b => sz a + sz b + 1

/-- Fuelled TypeScript assignability check.  `go f s t` decides whether `s`
is assignable to `t`, provided `f` is at least `sz s + sz t`:
everything is assignable to `unknown`; `never` is assignable to everything;
a union is assignable to a target iff each member is; a non-union source is
assignable to a union iff it is assignable to some member; literal types are
assignable to their primitive; function types compare contravariantly in the
parameter and covariantly in the result (`strictFunctionTypes`). -/
def go : Nat → Ty → Ty → Bool
  | 0, _, _ => false
  | fuel+1, s, t =>
      match s, t with
      | _, .unknown => true
      | .never, _ => true
      | .union a b, t => go fuel a t && go fuel b t
      | s, .union a b => go fuel s a || go fuel s b
      | .num, .num => true
      | .numLit _, .num => true
      | .numLit n, .numLit m => n == m
      | .str, .str => true
      | .tru, .tru => true
      | .fls, .fls => true
      | .fn a r, .fn a' r' => go fuel a' a && go fuel r r'
      | _, _ => false

/-- TypeScript assignability on the modelled fragment. -/
def assignable (s t : Ty) : Bool := go (sz s + sz t) s t

/-- Whether a type is syntactically a union type. -/
def isUnion : Ty → Bool
  | .union _ _ => true
  | _ => false

/-- Mutual assignability: TypeScript's notion of two types being identical
(the host checker relates types up to mutual assignability). -/
def mutAsg (a b : Ty) : Bool := assignable a b && assignable b a

/-- The union constituents of a type, as TypeScript's checker sees them when
it distributes a conditional type over a naked type parameter: members of
nested unions are flattened and `never` (the empty union) has no
constituents. -/
def constituents : Ty → List Ty
  | .union a b => constituents a ++ constituents b
  | .never => []
  | t => [t]

/-- Rebuild a union type from a list of constituents; the empty list yields
`never`, matching TypeScript's treatment of the empty union. -/
def unionOf : List Ty → Ty
  | [] => .never
  | [t] => t
  | t :: ts => .union t (unionOf ts)

/-- A distributive conditional type `A extends B ? Y : N` in which `A` is a
naked type parameter: TypeScript distributes the conditional over the union
constituents of `A` (evaluating to `never` when `A` is `never`), and the
branch taken for each constituent is decided by assignability. -/
def extendsDist (A B Y N : Ty) : Ty :=
  unionOf ((constituents A).map (fun a => if assignable a B then Y else N))

/-- `IfSub<A, B, Y, N> = A extends B ? Y : N` from `Propositions.ts`
(and the same conditional type is written inline in `Proofs.ts`). -/
def IfSub (A B Y N : Ty) : Ty := extendsDist A B Y N

/-- `IfSuper<A, B, Y, N> = B extends A ? Y : N` from `Propositions.ts`:
the checked naked parameter is `B`, so the conditional distributes over the
constituents of `B`. -/
def IfSuper (A B Y N : Ty) : Ty :=
  unionOf ((constituents B).map (fun b => if assignable b A then Y else N))

/-- `IfEq` from `Leibniz.ts` (also in `Propositions.ts`):
`((x: A) => B) extends ((x: B) => A) ? (((x: B) => A) extends ((x: A) => B)) ? Y : N : N`.
The checked types are function types, not naked parameters, so the
conditional does not distribute; `extends` is assignability. -/
def IfEq (A B Y N : Ty) : Ty :=
  if assignable (.fn A B) (.fn B A) then
    (if assignable (.fn B A) (.fn A B) then Y else N)
  else N

/-- `IfDisjoint<A, B, Y, N> = A extends B ? N : B extends A ? N : Y` from
`Propositions.ts`.  The outer conditional distributes over the constituents
of `A` (the constituent replaces `A` inside the branch), and the inner
conditional distributes over the constituents of `B`. -/
def IfDisjoint (A B Y N : Ty) : Ty :=
  unionOf ((constituents A).map (fun a =>
    if assignable a B then N
    else unionOf ((constituents B).map (fun b => if assignable b a then N else Y))))

/-- Syntax of the relation proof types of `Proofs.ts`: an `Eq<X, Y>` witness
atom (written `wit X Y`), and intersection and union of proof types. -/
inductive Prf : Type where
  | wit (x y : Ty)
  | inter (p q : Prf)
  | union (p q : Prf)
  deriving DecidableEq, Repr

/-- Inhabitation of a proof type, in the sense of the library: a value of a
witness type `Eq<X, Y> = ((x: X) => Y) & ((x: Y) => X)` can be honestly
constructed (canonically by `refl`) exactly when `X` and `Y` are mutually
assignable; an intersection requires both operands inhabited and a union at
least one.  (That a single `refl` realises exactly mutual assignability is
proved below from the function-type assignability rules: see
`wit_inhab_iff_reflFits`.) -/
def inhab : Prf → Bool
  | .wit x y => mutAsg x y
  | .inter p q => inhab p && inhab q
  | .union p q => inhab p || inhab q

/-- Whether the canonical constructor `refl<T> : (x: T) => T` type-checks
against the witness type `Eq<X, Y>`, i.e. whether `(x: T) => T` is assignable
to both halves of the intersection `((x: X) => Y) & ((x: Y) => X)`. -/
def reflFits (T X Y : Ty) : Bool :=
  assignable (.fn T T) (.fn X Y) && assignable (.fn T T) (.fn Y X)

/-- `Eq<A, B>` from `Leibniz.ts` as a proof type (named `EqW` here because
`Eq` is Lean's built-in equality). -/
def EqW (A B : Ty) : Prf := .wit A B

/-- `NotEq<A, B> = Eq<IfEq<A, B, true, false>, false>` from `Proofs.ts`. -/
def NotEq (A B : Ty) : Prf := .wit (IfEq A B .tru .fls) .fls

/-- `Sub<A, B> = Eq<A extends B ? true : false, true>` from `Proofs.ts`. -/
def Sub (A B : Ty) : Prf := .wit (extendsDist A B .tru .fls) .tru

/-- `NotSub<A, B> = Eq<A extends B ? true : false, false>` from `Proofs.ts`. -/
def NotSub (A B : Ty) : Prf := .wit (extendsDist A B .tru .fls) .fls

/-- `Super<A, B> = Sub<B, A>` from `Proofs.ts`. -/
def Super (A B : Ty) : Prf := Sub B A

/-- `NotSuper<A, B> = NotSub<B, A>` from `Proofs.ts`. -/
def NotSuper (A B : Ty) : Prf := NotSub B A

/-- `StrictSub<A, B> = Sub<A, B> & NotEq<A, B>` from `Proofs.ts`. -/
def StrictSub (A B : Ty) : Prf := .inter (Sub A B) (NotEq A B)

/-- `Disjoint<A, B> = NotSub<A, B> & NotSuper<A, B>` from `Proofs.ts`. -/
def Disjoint (A B : Ty) : Prf := .inter (NotSub A B) (NotSuper A B)

/-- `NotStrictSub<A, B> = Super<A, B> | Disjoint<A, B>` from `Proofs.ts`. -/
def NotStrictSub (A B : Ty) : Prf := .union (Super A B) (Disjoint A B)

/-- `StrictSuper<A, B> = Super<A, B> & NotEq<A, B>` from `Proofs.ts`. -/
def StrictSuper (A B : Ty) : Prf := .inter (Super A B) (NotEq A B)

/-- `NotStrictSuper<A, B> = Sub<A, B> | Disjoint<A, B>` from `Proofs.ts`. -/
def NotStrictSuper (A B : Ty) : Prf := .union (Sub A B) (Disjoint A B)

/-- `Related<A, B> = Sub<A, B> | Super<A, B>` from `Proofs.ts`. -/
def Related (A B : Ty) : Prf := .union (Sub A B) (Super A B)

/-- How many of the four classifying proof types of the partition property
are inhabited at the pair `(A, B)`. -/
def partitionCount (A B : Ty) : Nat :=
  (inhab (StrictSub A B)).toNat + (inhab (StrictSuper A B)).toNat
    + (inhab (EqW A B)).toNat + (inhab (Disjoint A B)).toNat

end LeibnizTS

namespace Leibniz

/-!
The runtime (value level) of `Leibniz.ts`, after TypeScript's type erasure:
at runtime an `Eq<A, B>` proof is a single function value, and all of the
module's functions are identity-shaped.  `trans` cannot be written
constructively, so the source returns `refl as any`, fabricating the result.
-/

/-- `refl<T>(x: T): T { return x; }` from `Leibniz.ts`. -/
def refl {α : Type} (x : α) : α := x

/-- `sym<A, B>(p: Eq<A, B>): Eq<B, A> { return p; }` from `Leibniz.ts`. -/
def sym {α : Type} (p : α → α) : α → α := p

/-- `trans<A, B, C>(_1: Eq<A, B>, _2: Eq<B, C>): Eq<A, C> { return refl as any; }`
from `Leibniz.ts`: both witness arguments are ignored and the fabricated
result is the `refl` function itself. -/
def trans {α : Type} (_p _q : α → α) : α → α := refl

/-- `sub1<A, B, C>(_1, _2) { return sym(trans(sym(_1), _2)); }` from
`Leibniz.ts`. -/
def sub1 {α : Type} (p q : α → α) : α → α := sym (trans (sym p) q)

/-- `sub2<A, B, C>(_1, _2) { return trans(_1, _2); }` from `Leibniz.ts`. -/
def sub2 {α : Type} (p q : α → α) : α → α := trans p q

/-- `cast<A, B>(p: Eq<A, B>): (x: A) => B { return p; }` from `Leibniz.ts`. -/
def cast {α : Type} (p : α → α) : α → α := p

end Leibniz

namespace LeibnizTS

/-!
The verification harness (`Tests.ts`).  Each named test function has type
parameters `A`, `B` and an optional inert `_doc` parameter, takes a proof
value of the corresponding proof type and returns it unchanged.  We model
each function by two components faithful to its declaration:
its declared parameter proof type as a function of `A`, `B` and the doc
parameter (the source declarations never mention `_doc` in the parameter
type), and its runtime behaviour on the proof value.
-/

/-- Declared parameter type of `testEq<A, B, _doc>(p: Eq<A, B>)`. -/
def testEqParam (A B : Ty) (_doc : String) : Prf := EqW A B

/-- Declared parameter type of `testNotEq<A, B, _doc>(p: NotEq<A, B>)`. -/
def testNotEqParam (A B : Ty) (_doc : String) : Prf := NotEq A B

/-- Declared parameter type of `testSub<A, B, _doc>(p: Sub<A, B>)`. -/
def testSubParam (A B : Ty) (_doc : String) : Prf := Sub A B

/-- Declared parameter type of `testNotSub<A, B, _doc>(p: NotSub<A, B>)`. -/
def testNotSubParam (A B : Ty) (_doc : String) : Prf := NotSub A B

/-- Declared parameter type of `testStrictSub<A, B, _doc>(p: StrictSub<A, B>)`. -/
def testStrictSubParam (A B : Ty) (_doc : String) : Prf := StrictSub A B

/-- Declared parameter type of
`testNotStrictSub<A, B, _doc>(p: NotStrictSub<A, B>)`. -/
def testNotStrictSubParam (A B : Ty) (_doc : String) : Prf := NotStrictSub A B

/-- Declared parameter type of `testSuper<A, B, _doc>(p: Super<A, B>)`. -/
def testSuperParam (A B : Ty) (_doc : String) : Prf := Super A B

/-- Declared parameter type of `testNotSuper<A, B, _doc>(p: NotSuper<A, B>)`. -/
def testNotSuperParam (A B : Ty) (_doc : String) : Prf := NotSuper A B

/-- Declared parameter type of
`testStrictSuper<A, B, _doc>(p: StrictSuper<A, B>)`. -/
def testStrictSuperParam (A B : Ty) (_doc : String) : Prf := StrictSuper A B

/-- Declared parameter type of
`testNotStrictSuper<A, B, _doc>(p: NotStrictSuper<A, B>)`. -/
def testNotStrictSuperParam (A B : Ty) (_doc : String) : Prf := NotStrictSuper A B

/-- Declared parameter type of `testDisjoint<A, B, _doc>(p: Disjoint<A, B>)`. -/
def testDisjointParam (A B : Ty) (_doc : String) : Prf := Disjoint A B

/-- Runtime behaviour of `testEq<A, B, _doc = "">(p): return p;` after type
erasure; the type parameters and the doc parameter are phantom. -/
def testEq {α : Type} (_A _B : Ty) (_doc : String) (p : α) : α := p

/-- Runtime behaviour of `testNotEq`. -/
def testNotEq {α : Type} (_A _B : Ty) (_doc : String) (p : α) : α := p

/-- Runtime behaviour of `testSub`. -/
def testSub {α : Type} (_A _B : Ty) (_doc : String) (p : α) : α := p

/-- Runtime behaviour of `testNotSub`. -/
def testNotSub {α : Type} (_A _B : Ty) (_doc : String) (p : α) : α := p

/-- Runtime behaviour of `testStrictSub`. -/
def testStrictSub {α : Type} (_A _B : Ty) (_doc : String) (p : α) : α := p

/-- Runtime behaviour of `testNotStrictSub`. -/
def testNotStrictSub {α : Type} (_A _B : Ty) (_doc : String) (p : α) : α := p

/-- Runtime behaviour of `testSuper`. -/
def testSuper {α : Type} (_A _B : Ty) (_doc : String) (p : α) : α := p

/-- Runtime behaviour of `testNotSuper`. -/
def testNotSuper {α : Type} (_A _B : Ty) (_doc : String) (p : α) : α := p

/-- Runtime behaviour of `testStrictSuper`. -/
def testStrictSuper {α : Type} (_A _B : Ty) (_doc : String) (p : α) : α := p

/-- Runtime behaviour of `testNotStrictSuper`. -/
def testNotStrictSuper {α : Type} (_A _B : Ty) (_doc : String) (p : α) : α := p

/-- Runtime behaviour of `testDisjoint`. -/
def testDisjoint {α : Type} (_A _B : Ty) (_doc : String) (p : α) : α := p

/-- Modelled from the spec: `testRel` is not among the given source files
(only `Tests.ts`'s named wrappers are); per spec §4.4, `testRel<Rel>(proof)`
is the generalized verification function, the identity on an arbitrary
relation proof type `Rel` composed from the algebra, with an inert doc
parameter.  Its declared parameter type is `Rel` itself. -/
def testRelParam (R : Prf) (_doc : String) : Prf := R

/-- Modelled from the spec: the runtime behaviour of `testRel<Rel>(proof)`,
the identity on the supplied proof value. -/
def testRel {α : Type} (_R : Prf) (_doc : String) (p : α) : α := p

theorem sz_pos : ∀ t : Ty, 1 ≤ sz t := by
  intro t
  cases t <;> simp [sz]

/-- The fuelled assignability check does not depend on the fuel, as long as
there is enough of it. -/
theorem go_congr : ∀ (f g : Nat) (s t : Ty),
    sz s + sz t ≤ f → sz s + sz t ≤ g → go f s t = go g s t := by
  intro f
  induction f with
  | zero =>
    intro g s t hf _
    have := sz_pos s
    omega
  | succ f ih =>
    intro g s t hf hg
    have hs := sz_pos s
    have ht := sz_pos t
    cases g with
    | zero => omega
    | succ g =>
      show go (f+1) s t = go (g+1) s t
      cases s <;> cases t <;>
        simp only [go, sz] at hf hg ⊢ <;>
        first
        | rfl
        | (congr 1 <;> apply ih <;> (try simp only [sz]) <;> omega)

/-- Any sufficient fuel computes `assignable`. -/
theorem go_eq_assignable (f : Nat) (s t : Ty) (h : sz s + sz t ≤ f) :
    go f s t = assignable s t :=
  go_congr f (sz s + sz t) s t h (Nat.le_refl _)

/-- Everything is assignable to `unknown`. -/
theorem asg_unknown (s : Ty) : assignable s .unknown = true := by
  cases s <;> rfl

/-- `never` is assignable to everything. -/
theorem asg_never_left (t : Ty) : assignable .never t = true := by
  cases t <;> rfl

theorem go_union_left (f : Nat) (a b t : Ty)
    (ha : sz a + sz t ≤ f) (hb : sz b + sz t ≤ f) :
    go (f + 1) (.union a b) t = (assignable a t && assignable b t) := by
  cases t <;>
    first
    | (show (go f a _ && go f b _) = _
       rw [go_eq_assignable f a _ ha, go_eq_assignable f b _ hb])
    | (show (true : Bool) = _
       simp [asg_unknown])

/-- A union source is assignable to a target iff each member is. -/
theorem asg_union_left (a b t : Ty) :
    assignable (.union a b) t = (assignable a t && assignable b t) := by
  show go (sz (Ty.union a b) + sz t) (Ty.union a b) t = _
  rw [show sz (Ty.union a b) + sz t = (sz a + sz b + sz t) + 1 from by
    simp only [sz]; omega]
  exact go_union_left _ _ _ _ (by omega) (by omega)

theorem go_union_right (f : Nat) (s a b : Ty) (hs : isUnion s = false)
    (ha : sz s + sz a ≤ f) (hb : sz s + sz b ≤ f) :
    go (f + 1) s (.union a b) = (assignable s a || assignable s b) := by
  cases s
  case union x y => simp [isUnion] at hs
  case never =>
    show (true : Bool) = _
    simp [asg_never_left]
  all_goals
    (show (go f _ a || go f _ b) = _
     rw [go_eq_assignable f _ a ha, go_eq_assignable f _ b hb])

/-- A non-union source is assignable to a union iff it is assignable to one
of the two sides. -/
theorem asg_union_right (s a b : Ty) (hs : isUnion s = false) :
    assignable s (.union a b) = (assignable s a || assignable s b) := by
  show go (sz s + sz (Ty.union a b)) s (Ty.union a b) = _
  rw [show sz s + sz (Ty.union a b) = (sz s + sz a + sz b) + 1 from by
    simp only [sz]; omega]
  exact go_union_right _ _ _ _ hs (by omega) (by omega)

/-- Function types compare contravariantly in the parameter and covariantly
in the result. -/
theorem asg_fn (a r a' r' : Ty) :
    assignable (.fn a r) (.fn a' r') = (assignable a' a && assignable r r') := by
  show go (sz (Ty.fn a r) + sz (Ty.fn a' r')) (Ty.fn a r) (Ty.fn a' r') = _
  rw [show sz (Ty.fn a r) + sz (Ty.fn a' r') = ((sz a + sz r + sz a' + sz r') + 1) + 1 from by
    simp only [sz]; omega]
  show (go _ a' a && go _ r r') = _
  rw [go_eq_assignable _ a' a (by omega), go_eq_assignable _ r r' (by omega)]

theorem asg_numLit_num (n : Nat) : assignable (.numLit n) .num = true := rfl

theorem asg_numLit (n m : Nat) :
    assignable (.numLit n) (.numLit m) = (n == m) := rfl

/-- No non-union type other than `never` is assignable to `never`. -/
theorem asg_atom_never (s : Ty) (hs : isUnion s = false) (hn : s ≠ .never) :
    assignable s .never = false := by
  cases s <;> first | rfl | simp_all [isUnion]

@[simp] theorem isUnion_num : isUnion .num = false := rfl

@[simp] theorem isUnion_str : isUnion .str = false := rfl

@[simp] theorem isUnion_tru : isUnion .tru = false := rfl

@[simp] theorem isUnion_fls : isUnion .fls = false := rfl

@[simp] theorem isUnion_never : isUnion .never = false := rfl

@[simp] theorem isUnion_unknown : isUnion .unknown = false := rfl

@[simp] theorem isUnion_numLit (n : Nat) : isUnion (.numLit n) = false := rfl

@[simp] theorem isUnion_union (a b : Ty) : isUnion (.union a b) = true := rfl

@[simp] theorem isUnion_fn (a b : Ty) : isUnion (.fn a b) = false := rfl

/-- A type assignable to `a` is assignable to `a | b`. -/
theorem le_union_intro_left : ∀ (s a b : Ty), assignable s a = true →
    assignable s (.union a b) = true := by
  intro s
  induction s with
  | union x y ihx ihy =>
    intro a b h
    rw [asg_union_left] at h ⊢
    simp only [Bool.and_eq_true] at h ⊢
    exact ⟨ihx _ _ h.1, ihy _ _ h.2⟩
  | never => intro a b _; exact asg_never_left _
  | num => intro a b h; rw [asg_union_right .num a b rfl]; simp [h]
  | str => intro a b h; rw [asg_union_right .str a b rfl]; simp [h]
  | tru => intro a b h; rw [asg_union_right .tru a b rfl]; simp [h]
  | fls => intro a b h; rw [asg_union_right .fls a b rfl]; simp [h]
  | unknown => intro a b h; rw [asg_union_right .unknown a b rfl]; simp [h]
  | numLit n => intro a b h; rw [asg_union_right (.numLit n) a b rfl]; simp [h]
  | fn d c _ _ => intro a b h; rw [asg_union_right (.fn d c) a b rfl]; simp [h]

/-- A type assignable to `b` is assignable to `a | b`. -/
theorem le_union_intro_right : ∀ (s a b : Ty), assignable s b = true →
    assignable s (.union a b) = true := by
  intro s
  induction s with
  | union x y ihx ihy =>
    intro a b h
    rw [asg_union_left] at h ⊢
    simp only [Bool.and_eq_true] at h ⊢
    exact ⟨ihx _ _ h.1, ihy _ _ h.2⟩
  | never => intro a b _; exact asg_never_left _
  | num => intro a b h; rw [asg_union_right .num a b rfl]; simp [h]
  | str => intro a b h; rw [asg_union_right .str a b rfl]; simp [h]
  | tru => intro a b h; rw [asg_union_right .tru a b rfl]; simp [h]
  | fls => intro a b h; rw [asg_union_right .fls a b rfl]; simp [h]
  | unknown => intro a b h; rw [asg_union_right .unknown a b rfl]; simp [h]
  | numLit n => intro a b h; rw [asg_union_right (.numLit n) a b rfl]; simp [h]
  | fn d c _ _ => intro a b h; rw [asg_union_right (.fn d c) a b rfl]; simp [h]

/-- Assignability is reflexive. -/
theorem asg_refl : ∀ t : Ty, assignable t t = true := by
  intro t
  induction t with
  | union a b iha ihb =>
    rw [asg_union_left]
    simp [le_union_intro_left _ _ _ iha, le_union_intro_right _ _ _ ihb]
  | fn a r iha ihr =>
    rw [asg_fn]
    simp [iha, ihr]
  | numLit n => simp [asg_numLit]
  | _ => rfl

/-- `unknown` is assignable only to unions one of whose sides absorbs it
(never to a non-union type other than `unknown` itself). -/
theorem asg_unknown_left (u : Ty) (h1 : isUnion u = false)
    (h2 : u ≠ .unknown) : assignable .unknown u = false := by
  cases u <;> first | rfl | simp_all [isUnion]

/-- Fuelled version of transitivity of assignability. -/
theorem asg_trans_fuel : ∀ (n : Nat) (s t u : Ty), sz s + sz t + sz u ≤ n →
    assignable s t = true → assignable t u = true → assignable s u = true := by
  intro n
  induction n with
  | zero =>
    intro s t u h _ _
    have := sz_pos s
    have := sz_pos t
    have := sz_pos u
    omega
  | succ n ih =>
    intro s t u hn h1 h2
    rcases eq_or_ne u .unknown with hu | hu
    · subst hu
      exact asg_unknown s
    cases s
    case never => exact asg_never_left u
    case union x y =>
      rw [asg_union_left] at h1 ⊢
      simp only [Bool.and_eq_true] at h1 ⊢
      refine ⟨ih x t u ?_ h1.1 h2, ih y t u ?_ h1.2 h2⟩ <;>
        (simp only [sz] at hn; omega)
    all_goals cases t
    -- t a union type: decompose both hypotheses
    all_goals try
      (rename_i a b
       simp only [asg_union_right, isUnion_num, isUnion_str, isUnion_tru,
         isUnion_fls, isUnion_unknown, isUnion_numLit, isUnion_fn] at h1
       rw [asg_union_left] at h2
       simp only [Bool.or_eq_true] at h1
       simp only [Bool.and_eq_true] at h2
       rcases h1 with h1 | h1
       · exact ih _ _ _ (by simp only [sz] at hn ⊢; omega) h1 h2.1
       · exact ih _ _ _ (by simp only [sz] at hn ⊢; omega) h1 h2.2)
    -- t is not a union: split on u
    all_goals cases u
    all_goals try exact absurd rfl hu
    -- u a union type: decompose the second hypothesis
    all_goals try
      (rename_i a b
       simp only [asg_union_right, isUnion_num, isUnion_str, isUnion_tru,
         isUnion_fls, isUnion_unknown, isUnion_numLit, isUnion_fn] at h2
       simp only [Bool.or_eq_true] at h2
       rcases h2 with h2 | h2
       · exact le_union_intro_left _ _ _
           (ih _ _ _ (by simp only [sz] at hn ⊢; omega) h1 h2)
       · exact le_union_intro_right _ _ _
           (ih _ _ _ (by simp only [sz] at hn ⊢; omega) h1 h2))
    -- hypotheses over mismatched atoms reduce to false
    all_goals try exact Bool.noConfusion h1
    all_goals try exact Bool.noConfusion h2
    -- identical primitive atoms
    all_goals try rfl
    -- numeric literal chains
    all_goals try
      (simp only [asg_numLit, beq_iff_eq] at h1 h2 ⊢
       omega)
    -- function types: contravariant parameter, covariant result
    all_goals
      (rw [asg_fn] at h1 h2 ⊢
       simp only [Bool.and_eq_true] at h1 h2 ⊢
       exact ⟨ih _ _ _ (by simp only [sz] at hn; omega) h2.1 h1.1,
              ih _ _ _ (by simp only [sz] at hn; omega) h1.2 h2.2⟩)

/-- Assignability is transitive. -/
theorem asg_trans (s t u : Ty) (h1 : assignable s t = true)
    (h2 : assignable t u = true) : assignable s u = true :=
  asg_trans_fuel (sz s + sz t + sz u) s t u (Nat.le_refl _) h1 h2

/-- Union constituents are never unions or `never`. -/
theorem consts_flat : ∀ (t : Ty), ∀ x ∈ constituents t,
    isUnion x = false ∧ x ≠ .never := by
  intro t
  induction t with
  | union a b iha ihb =>
    intro x hx
    simp only [constituents, List.mem_append] at hx
    rcases hx with hx | hx
    · exact iha x hx
    · exact ihb x hx
  | never => intro x hx; simp [constituents] at hx
  | num => intro x hx; simp only [constituents, List.mem_singleton] at hx; subst hx; exact ⟨rfl, by decide⟩
  | str => intro x hx; simp only [constituents, List.mem_singleton] at hx; subst hx; exact ⟨rfl, by decide⟩
  | tru => intro x hx; simp only [constituents, List.mem_singleton] at hx; subst hx; exact ⟨rfl, by decide⟩
  | fls => intro x hx; simp only [constituents, List.mem_singleton] at hx; subst hx; exact ⟨rfl, by decide⟩
  | unknown => intro x hx; simp only [constituents, List.mem_singleton] at hx; subst hx; exact ⟨rfl, by decide⟩
  | numLit n => intro x hx; simp only [constituents, List.mem_singleton] at hx; subst hx; exact ⟨rfl, by simp⟩
  | fn d c _ _ => intro x hx; simp only [constituents, List.mem_singleton] at hx; subst hx; exact ⟨rfl, by simp⟩

/-- A source is assignable to a target iff each of its union constituents
is. -/
theorem asg_iff_consts : ∀ (s t : Ty), assignable s t = true ↔
    (∀ x ∈ constituents s, assignable x t = true) := by
  intro s
  induction s with
  | union a b iha ihb =>
    intro t
    rw [asg_union_left, Bool.and_eq_true]
    simp only [constituents, List.mem_append]
    constructor
    · rintro ⟨h1, h2⟩ x hx
      rcases hx with hx | hx
      · exact (iha t).1 h1 x hx
      · exact (ihb t).1 h2 x hx
    · intro h
      exact ⟨(iha t).2 (fun x hx => h x (Or.inl hx)),
             (ihb t).2 (fun x hx => h x (Or.inr hx))⟩
  | never => intro t; simp [asg_never_left, constituents]
  | num => intro t; simp [constituents]
  | str => intro t; simp [constituents]
  | tru => intro t; simp [constituents]
  | fls => intro t; simp [constituents]
  | unknown => intro t; simp [constituents]
  | numLit n => intro t; simp [constituents]
  | fn d c _ _ => intro t; simp [constituents]

/-- A non-union, non-`never` source is assignable to a target iff it is
assignable to some union constituent of the target. -/
theorem atom_le_iff : ∀ (t s : Ty), isUnion s = false → s ≠ .never →
    (assignable s t = true ↔ ∃ x ∈ constituents t, assignable s x = true) := by
  intro t
  induction t with
  | union a b iha ihb =>
    intro s hs hn
    rw [asg_union_right s a b hs, Bool.or_eq_true, iha s hs hn, ihb s hs hn]
    simp only [constituents, List.mem_append]
    constructor
    · rintro (⟨x, hx, h⟩ | ⟨x, hx, h⟩)
      · exact ⟨x, Or.inl hx, h⟩
      · exact ⟨x, Or.inr hx, h⟩
    · rintro ⟨x, hx | hx, h⟩
      · exact Or.inl ⟨x, hx, h⟩
      · exact Or.inr ⟨x, hx, h⟩
  | never =>
    intro s hs hn
    rw [asg_atom_never s hs hn]
    simp [constituents]
  | unknown => intro s hs hn; simp [asg_unknown, constituents]
  | num => intro s hs hn; simp [constituents]
  | str => intro s hs hn; simp [constituents]
  | tru => intro s hs hn; simp [constituents]
  | fls => intro s hs hn; simp [constituents]
  | numLit n => intro s hs hn; simp [constituents]
  | fn d c _ _ => intro s hs hn; simp [constituents]

/-- `unionOf l` is assignable to a target iff every list element is. -/
theorem unionOf_le : ∀ (l : List Ty) (c : Ty),
    assignable (unionOf l) c = true ↔ ∀ x ∈ l, assignable x c = true := by
  intro l
  induction l with
  | nil => intro c; simp [unionOf, asg_never_left]
  | cons a l ih =>
    intro c
    cases l with
    | nil => simp [unionOf]
    | cons b m =>
      rw [show unionOf (a :: b :: m) = .union a (unionOf (b :: m)) from rfl,
          asg_union_left, Bool.and_eq_true, ih c]
      simp [List.forall_mem_cons]

/-- A non-union, non-`never` source is assignable to `unionOf l` iff it is
assignable to some list element. -/
theorem le_unionOf : ∀ (l : List Ty) (s : Ty), isUnion s = false → s ≠ .never →
    (assignable s (unionOf l) = true ↔ ∃ x ∈ l, assignable s x = true) := by
  intro l
  induction l with
  | nil =>
    intro s hs hn
    rw [show unionOf ([] : List Ty) = Ty.never from rfl, asg_atom_never s hs hn]
    simp
  | cons a l ih =>
    intro s hs hn
    cases l with
    | nil => simp [unionOf]
    | cons b m =>
      rw [show unionOf (a :: b :: m) = .union a (unionOf (b :: m)) from rfl,
          asg_union_right s _ _ hs, Bool.or_eq_true, ih s hs hn]
      constructor
      · rintro (h | ⟨x, hx, h⟩)
        · exact ⟨a, by simp, h⟩
        · exact ⟨x, by simp [hx], h⟩
      · rintro ⟨x, hx, h⟩
        rcases List.mem_cons.1 hx with rfl | hx
        · exact Or.inl h
        · exact Or.inr ⟨x, hx, h⟩

theorem mutAsg_tru_tru : mutAsg .tru .tru = true := by decide

theorem mutAsg_fls_fls : mutAsg .fls .fls = true := by decide

theorem mutAsg_tru_fls : mutAsg .tru .fls = false := by decide

theorem mutAsg_fls_tru : mutAsg .fls .tru = false := by decide

theorem branch_le_tru (a B : Ty) :
    assignable (if assignable a B then Ty.tru else Ty.fls) .tru = assignable a B := by
  cases h : assignable a B <;> simp [h] <;> decide

theorem tru_le_branch (a B : Ty) :
    assignable .tru (if assignable a B then Ty.tru else Ty.fls) = assignable a B := by
  cases h : assignable a B <;> simp [h] <;> decide

theorem branch_le_fls (a B : Ty) :
    assignable (if assignable a B then Ty.tru else Ty.fls) .fls = !(assignable a B) := by
  cases h : assignable a B <;> simp [h] <;> decide

theorem fls_le_branch (a B : Ty) :
    assignable .fls (if assignable a B then Ty.tru else Ty.fls) = !(assignable a B) := by
  cases h : assignable a B <;> simp [h] <;> decide

/-- The distributive conditional `A extends B ? true : false` resolves to a
type mutually assignable with `true` exactly when `A` has at least one union
constituent and `A` is assignable to `B`. -/
theorem extT_iff (A B : Ty) :
    mutAsg (extendsDist A B .tru .fls) .tru = true ↔
      (constituents A ≠ [] ∧ assignable A B = true) := by
  unfold mutAsg extendsDist
  rw [Bool.and_eq_true, unionOf_le, le_unionOf _ .tru rfl (by decide)]
  constructor
  · rintro ⟨h1, h2⟩
    obtain ⟨x, hx, _⟩ := h2
    obtain ⟨a, ha, rfl⟩ := List.mem_map.1 hx
    refine ⟨fun hmt => by rw [hmt] at ha; simp at ha, ?_⟩
    rw [asg_iff_consts]
    intro c hc
    have hmem := h1 _ (List.mem_map.2 ⟨c, hc, rfl⟩)
    rwa [branch_le_tru] at hmem
  · rintro ⟨hne, hAB⟩
    have hall := (asg_iff_consts A B).1 hAB
    constructor
    · intro x hx
      obtain ⟨a, ha, rfl⟩ := List.mem_map.1 hx
      rw [branch_le_tru]
      exact hall a ha
    · obtain ⟨a, ha⟩ := List.exists_mem_of_ne_nil _ hne
      exact ⟨_, List.mem_map.2 ⟨a, ha, rfl⟩,
        by rw [tru_le_branch]; exact hall a ha⟩

/-- The distributive conditional `A extends B ? true : false` resolves to a
type mutually assignable with `false` exactly when `A` has at least one union
constituent and no constituent of `A` is assignable to `B`. -/
theorem extF_iff (A B : Ty) :
    mutAsg (extendsDist A B .tru .fls) .fls = true ↔
      (constituents A ≠ [] ∧ ∀ a ∈ constituents A, assignable a B = false) := by
  unfold mutAsg extendsDist
  rw [Bool.and_eq_true, unionOf_le, le_unionOf _ .fls rfl (by decide)]
  constructor
  · rintro ⟨h1, h2⟩
    obtain ⟨x, hx, _⟩ := h2
    obtain ⟨a, ha, rfl⟩ := List.mem_map.1 hx
    refine ⟨fun hmt => by rw [hmt] at ha; simp at ha, ?_⟩
    intro c hc
    have hmem := h1 _ (List.mem_map.2 ⟨c, hc, rfl⟩)
    rw [branch_le_fls] at hmem
    simpa using hmem
  · rintro ⟨hne, hall⟩
    constructor
    · intro x hx
      obtain ⟨a, ha, rfl⟩ := List.mem_map.1 hx
      rw [branch_le_fls, hall a ha]
      rfl
    · obtain ⟨a, ha⟩ := List.exists_mem_of_ne_nil _ hne
      refine ⟨_, List.mem_map.2 ⟨a, ha, rfl⟩, ?_⟩
      rw [fls_le_branch, hall a ha]
      rfl

/-- The invariant `IfEq` trick evaluates by cases on mutual assignability:
since the checked types are function types, `IfEq<A, B, Y, N>` reduces to `Y`
when `A` and `B` are mutually assignable and to `N` otherwise. -/
theorem IfEq_eq (A B Y N : Ty) :
    IfEq A B Y N = if mutAsg A B = true then Y else N := by
  unfold IfEq mutAsg
  rw [asg_fn, asg_fn]
  cases h1 : assignable A B <;> cases h2 : assignable B A <;> simp [h1, h2]

/-- Inhabitation of the `Eq` witness type is mutual assignability. -/
theorem EqW_inhab (A B : Ty) : inhab (EqW A B) = mutAsg A B := rfl

/-- Inhabitation of `Sub<A, B>`. -/
theorem Sub_inhab_iff (A B : Ty) :
    inhab (Sub A B) = true ↔ (constituents A ≠ [] ∧ assignable A B = true) :=
  extT_iff A B

/-- Inhabitation of `NotSub<A, B>`. -/
theorem NotSub_inhab_iff (A B : Ty) :
    inhab (NotSub A B) = true ↔
      (constituents A ≠ [] ∧ ∀ a ∈ constituents A, assignable a B = false) :=
  extF_iff A B

/-- Inhabitation of `NotEq<A, B>`: exactly non-(mutual assignability). -/
theorem NotEq_inhab_iff (A B : Ty) :
    inhab (NotEq A B) = true ↔ mutAsg A B = false := by
  show mutAsg (IfEq A B .tru .fls) .fls = true ↔ _
  rw [IfEq_eq]
  cases h : mutAsg A B <;>
    simp [h, mutAsg_fls_fls, mutAsg_tru_fls]

/-- A single generic `refl` fits the witness type `Eq<X, Y>` for some
instantiation of its type parameter exactly when `X` and `Y` are mutually
assignable (instantiating at `T := X`). -/
theorem wit_inhab_iff_reflFits (X Y : Ty) :
    mutAsg X Y = true ↔ (∃ T, reflFits T X Y = true) := by
  constructor
  · intro h
    rw [mutAsg, Bool.and_eq_true] at h
    refine ⟨X, ?_⟩
    unfold reflFits
    rw [asg_fn, asg_fn, asg_refl, h.1, h.2]
    rfl
  · rintro ⟨T, hT⟩
    unfold reflFits at hT
    rw [asg_fn, asg_fn] at hT
    simp only [Bool.and_eq_true] at hT
    rw [mutAsg, Bool.and_eq_true]
    exact ⟨asg_trans X T Y hT.1.1 hT.1.2, asg_trans Y T X hT.2.1 hT.2.2⟩

theorem branchNeg_le_tru (b a : Ty) :
    assignable (if assignable b a then Ty.fls else Ty.tru) .tru
      = !(assignable b a) := by
  cases h : assignable b a <;> simp [h] <;> decide

theorem tru_le_branchNeg (b a : Ty) :
    assignable .tru (if assignable b a then Ty.fls else Ty.tru)
      = !(assignable b a) := by
  cases h : assignable b a <;> simp [h] <;> decide

/-- `IfSuper<A, B, Y, N>` is the subtype conditional with swapped
arguments. -/
theorem IfSuper_eq (A B Y N : Ty) : IfSuper A B Y N = extendsDist B A Y N := rfl

/-- Inhabitation of the composed `Disjoint<A, B> = NotSub & NotSuper`. -/
theorem Disjoint_inhab_iff (A B : Ty) :
    inhab (Disjoint A B) = true ↔
      ((constituents A ≠ [] ∧ ∀ a ∈ constituents A, assignable a B = false) ∧
       (constituents B ≠ [] ∧ ∀ b ∈ constituents B, assignable b A = false)) := by
  show (inhab (NotSub A B) && inhab (NotSub B A)) = true ↔ _
  rw [Bool.and_eq_true, NotSub_inhab_iff, NotSub_inhab_iff]

/-- The direct disjointness conditional `IfDisjoint<A, B, true, false>`
resolves to a type mutually assignable with `true` exactly when both sides
have constituents, no constituent of `A` is assignable to `B`, and no
constituent of `B` is assignable to any constituent of `A`. -/
theorem IfDisjoint_yes_iff (A B : Ty) :
    mutAsg (IfDisjoint A B .tru .fls) .tru = true ↔
      (constituents A ≠ [] ∧ constituents B ≠ [] ∧
       (∀ a ∈ constituents A, assignable a B = false) ∧
       (∀ a ∈ constituents A, ∀ b ∈ constituents B, assignable b a = false)) := by
  unfold mutAsg IfDisjoint
  rw [Bool.and_eq_true, unionOf_le, le_unionOf _ .tru rfl (by decide)]
  constructor
  · rintro ⟨h1, h2⟩
    obtain ⟨x, hx, hxt⟩ := h2
    obtain ⟨a0, ha0, rfl⟩ := List.mem_map.1 hx
    have key : ∀ a ∈ constituents A, assignable a B = false ∧
        ∀ b ∈ constituents B, assignable b a = false := by
      intro a ha
      have h := h1 _ (List.mem_map.2 ⟨a, ha, rfl⟩)
      cases hc : assignable a B
      · simp only [hc, Bool.false_eq_true, if_false] at h
        rw [unionOf_le] at h
        refine ⟨rfl, ?_⟩
        intro b hb
        have hbb := h _ (List.mem_map.2 ⟨b, hb, rfl⟩)
        rw [branchNeg_le_tru] at hbb
        simpa using hbb
      · simp only [hc, if_true] at h
        exact absurd h (by decide)
    have hAne : constituents A ≠ [] := by
      intro hh
      rw [hh] at ha0
      simp at ha0
    have hBne : constituents B ≠ [] := by
      intro hB
      rcases key a0 ha0 with ⟨hc, _⟩
      simp only [hc, Bool.false_eq_true, if_false, hB, List.map_nil] at hxt
      exact absurd hxt (by decide)
    exact ⟨hAne, hBne, fun a ha => (key a ha).1, fun a ha => (key a ha).2⟩
  · rintro ⟨hAne, hBne, hab, hba⟩
    constructor
    · intro x hx
      obtain ⟨a, ha, rfl⟩ := List.mem_map.1 hx
      simp only [hab a ha, Bool.false_eq_true, if_false]
      rw [unionOf_le]
      intro x hx
      obtain ⟨b, hb, rfl⟩ := List.mem_map.1 hx
      rw [branchNeg_le_tru, hba a ha b hb]
      rfl
    · obtain ⟨a, ha⟩ := List.exists_mem_of_ne_nil _ hAne
      obtain ⟨b, hb⟩ := List.exists_mem_of_ne_nil _ hBne
      refine ⟨_, List.mem_map.2 ⟨a, ha, rfl⟩, ?_⟩
      simp only [hab a ha, Bool.false_eq_true, if_false]
      rw [le_unionOf _ .tru rfl (by decide)]
      refine ⟨_, List.mem_map.2 ⟨b, hb, rfl⟩, ?_⟩
      rw [tru_le_branchNeg, hba a ha b hb]
      rfl

/-- No constituent of `B` is assignable to `A` iff no constituent of `B` is
assignable to any constituent of `A`. -/
theorem consts_le_iff (A B : Ty) :
    (∀ b ∈ constituents B, assignable b A = false) ↔
      (∀ a ∈ constituents A, ∀ b ∈ constituents B, assignable b a = false) := by
  constructor
  · intro h a ha b hb
    cases hba : assignable b a
    · rfl
    · obtain ⟨hU, hN⟩ := consts_flat B b hb
      have hbA : assignable b A = true := (atom_le_iff A b hU hN).2 ⟨a, ha, hba⟩
      rw [h b hb] at hbA
      exact Bool.noConfusion hbA
  · intro h b hb
    obtain ⟨hU, hN⟩ := consts_flat B b hb
    cases hba : assignable b A
    · rfl
    · obtain ⟨a, ha, hba2⟩ := (atom_le_iff A b hU hN).1 hba
      rw [h a ha b hb] at hba2
      exact Bool.noConfusion hba2

/-- The direct (conditional-type) and composed (intersection of negated
relations) formulations of disjointness agree on inhabitation for every type
pair. -/
theorem disjoint_agree (A B : Ty) :
    (mutAsg (IfDisjoint A B .tru .fls) .tru = true) ↔
      (inhab (Disjoint A B) = true) := by
  rw [IfDisjoint_yes_iff, Disjoint_inhab_iff, ← consts_le_iff]
  tauto

/-- `NotEq<A, B>` inhabitation as a boolean function of mutual
assignability. -/
theorem NotEq_inhab_eq (A B : Ty) : inhab (NotEq A B) = !(mutAsg A B) := by
  show mutAsg (IfEq A B .tru .fls) .fls = _
  rw [IfEq_eq]
  cases h : mutAsg A B <;> simp [h] <;> decide

/-- When `A` has a single constituent `a`, `A` is assignable to `B` exactly
when `a` is. -/
theorem asg_single (A B a : Ty) (ha : constituents A = [a]) :
    assignable A B = assignable a B := by
  cases h2 : assignable A B
  · cases h : assignable a B
    · rfl
    · have hAB : assignable A B = true := (asg_iff_consts A B).2 (by
        intro x hx
        rw [ha, List.mem_singleton] at hx
        rwa [hx])
      rw [h2] at hAB
      exact Bool.noConfusion hAB
  · have h3 := (asg_iff_consts A B).1 h2 a (by rw [ha]; exact List.mem_singleton.2 rfl)
    rw [h3]

/-- `Sub<A, B>` inhabitation when `A` has the single constituent `a`. -/
theorem Sub_inhab_single (A B a : Ty) (ha : constituents A = [a]) :
    inhab (Sub A B) = assignable a B := by
  show mutAsg (extendsDist A B .tru .fls) .tru = _
  unfold extendsDist
  rw [ha]
  simp only [List.map_cons, List.map_nil]
  rw [show unionOf [if assignable a B then Ty.tru else Ty.fls]
      = (if assignable a B then Ty.tru else Ty.fls) from rfl]
  cases h : assignable a B <;> simp [h, mutAsg_tru_tru, mutAsg_fls_tru]

/-- `NotSub<A, B>` inhabitation when `A` has the single constituent `a`. -/
theorem NotSub_inhab_single (A B a : Ty) (ha : constituents A = [a]) :
    inhab (NotSub A B) = !(assignable a B) := by
  show mutAsg (extendsDist A B .tru .fls) .fls = _
  unfold extendsDist
  rw [ha]
  simp only [List.map_cons, List.map_nil]
  rw [show unionOf [if assignable a B then Ty.tru else Ty.fls]
      = (if assignable a B then Ty.tru else Ty.fls) from rfl]
  cases h : assignable a B <;> simp [h, mutAsg_fls_fls, mutAsg_tru_fls]

theorem ex_ss_eq (A B : Ty) (h1 : inhab (StrictSub A B) = true)
    (h2 : inhab (EqW A B) = true) : False := by
  rw [show inhab (StrictSub A B) = (inhab (Sub A B) && inhab (NotEq A B)) from rfl,
      Bool.and_eq_true] at h1
  have hne := h1.2
  rw [NotEq_inhab_eq] at hne
  rw [EqW_inhab] at h2
  rw [h2] at hne
  exact Bool.noConfusion hne

theorem ex_sS_eq (A B : Ty) (h1 : inhab (StrictSuper A B) = true)
    (h2 : inhab (EqW A B) = true) : False := by
  rw [show inhab (StrictSuper A B) = (inhab (Sub B A) && inhab (NotEq A B)) from rfl,
      Bool.and_eq_true] at h1
  have hne := h1.2
  rw [NotEq_inhab_eq] at hne
  rw [EqW_inhab] at h2
  rw [h2] at hne
  exact Bool.noConfusion hne

theorem ex_ss_sS (A B : Ty) (h1 : inhab (StrictSub A B) = true)
    (h2 : inhab (StrictSuper A B) = true) : False := by
  rw [show inhab (StrictSub A B) = (inhab (Sub A B) && inhab (NotEq A B)) from rfl,
      Bool.and_eq_true] at h1
  rw [show inhab (StrictSuper A B) = (inhab (Sub B A) && inhab (NotEq A B)) from rfl,
      Bool.and_eq_true] at h2
  obtain ⟨-, hAB⟩ := (Sub_inhab_iff A B).1 h1.1
  obtain ⟨-, hBA⟩ := (Sub_inhab_iff B A).1 h2.1
  have hne := h1.2
  rw [NotEq_inhab_eq, mutAsg, hAB, hBA] at hne
  exact Bool.noConfusion hne

theorem ex_ss_dj (A B : Ty) (h1 : inhab (StrictSub A B) = true)
    (h2 : inhab (Disjoint A B) = true) : False := by
  rw [show inhab (StrictSub A B) = (inhab (Sub A B) && inhab (NotEq A B)) from rfl,
      Bool.and_eq_true] at h1
  obtain ⟨-, hAB⟩ := (Sub_inhab_iff A B).1 h1.1
  obtain ⟨⟨hne, hall⟩, -⟩ := (Disjoint_inhab_iff A B).1 h2
  obtain ⟨a, ha⟩ := List.exists_mem_of_ne_nil _ hne
  have h3 := (asg_iff_consts A B).1 hAB a ha
  rw [hall a ha] at h3
  exact Bool.noConfusion h3

theorem ex_sS_dj (A B : Ty) (h1 : inhab (StrictSuper A B) = true)
    (h2 : inhab (Disjoint A B) = true) : False := by
  rw [show inhab (StrictSuper A B) = (inhab (Sub B A) && inhab (NotEq A B)) from rfl,
      Bool.and_eq_true] at h1
  obtain ⟨-, hBA⟩ := (Sub_inhab_iff B A).1 h1.1
  obtain ⟨-, hne, hall⟩ := (Disjoint_inhab_iff A B).1 h2
  obtain ⟨b, hb⟩ := List.exists_mem_of_ne_nil _ hne
  have h3 := (asg_iff_consts B A).1 hBA b hb
  rw [hall b hb] at h3
  exact Bool.noConfusion h3

theorem ex_eq_dj (A B : Ty) (h1 : inhab (EqW A B) = true)
    (h2 : inhab (Disjoint A B) = true) : False := by
  rw [EqW_inhab, mutAsg, Bool.and_eq_true] at h1
  obtain ⟨⟨hne, hall⟩, -⟩ := (Disjoint_inhab_iff A B).1 h2
  obtain ⟨a, ha⟩ := List.exists_mem_of_ne_nil _ hne
  have h3 := (asg_iff_consts A B).1 h1.1 a ha
  rw [hall a ha] at h3
  exact Bool.noConfusion h3

/-- At most one of the four classifying proof types is inhabited at any
pair. -/
theorem partition_le_one (A B : Ty) : partitionCount A B ≤ 1 := by
  unfold partitionCount
  cases h1 : inhab (StrictSub A B) <;> cases h2 : inhab (StrictSuper A B) <;>
    cases h3 : inhab (EqW A B) <;> cases h4 : inhab (Disjoint A B) <;>
    simp only [Bool.toNat_true, Bool.toNat_false] <;>
    first
    | omega
    | exact (ex_ss_sS A B h1 h2).elim
    | exact (ex_ss_eq A B h1 h3).elim
    | exact (ex_sS_eq A B h2 h3).elim
    | exact (ex_ss_dj A B h1 h4).elim
    | exact (ex_sS_dj A B h2 h4).elim
    | exact (ex_eq_dj A B h3 h4).elim

/-- When both sides have exactly one union constituent, exactly one of the
four classifying proof types is inhabited. -/
theorem partition_exactly_one (A B : Ty)
    (hA : (constituents A).length = 1) (hB : (constituents B).length = 1) :
    partitionCount A B = 1 := by
  obtain ⟨a, ha⟩ := List.length_eq_one.1 hA
  obtain ⟨b, hb⟩ := List.length_eq_one.1 hB
  have e1 : assignable A B = assignable a B := asg_single A B a ha
  have e2 : assignable B A = assignable b A := asg_single B A b hb
  unfold partitionCount
  rw [show inhab (StrictSub A B) = (inhab (Sub A B) && inhab (NotEq A B)) from rfl,
      show inhab (StrictSuper A B) = (inhab (Sub B A) && inhab (NotEq A B)) from rfl,
      show inhab (Disjoint A B) = (inhab (NotSub A B) && inhab (NotSub B A)) from rfl,
      EqW_inhab, NotEq_inhab_eq,
      Sub_inhab_single A B a ha, Sub_inhab_single B A b hb,
      NotSub_inhab_single A B a ha, NotSub_inhab_single B A b hb,
      mutAsg, e1, e2]
  cases hx : assignable a B <;> cases hy : assignable b A <;> rfl

/-- C1 counterexample: at the pair `A = number | string`,
`B = number | true`, none of the four proof types `StrictSub`, `StrictSuper`,
`Eq`, `Disjoint` is inhabited, so it is false that exactly one of the four is
inhabited at every pair. -/
theorem claim1_counterexample :
    ¬ (partitionCount (.union .num .str) (.union .num .tru) = 1) := by
  decide

/-- C1 (amended): at every pair at most one of the four proof types
`StrictSub`, `StrictSuper`, `Eq`, `Disjoint` is inhabited, and at every pair
whose two sides each have exactly one union constituent (neither side is a
union or `never`) exactly one of the four is inhabited. -/
theorem claim1_partition (A B : Ty) :
    partitionCount A B ≤ 1 ∧
      ((constituents A).length = 1 → (constituents B).length = 1 →
        partitionCount A B = 1) :=
  ⟨partition_le_one A B, partition_exactly_one A B⟩

/-- C1 witness: at the concrete single-constituent pair `(3, number)` exactly
one of the four proof types is inhabited. -/
theorem claim1_partition_witness :
    partitionCount (.numLit 3) .num = 1 :=
  (claim1_partition (.numLit 3) .num).2 (by decide) (by decide)

/-- C2 counterexample: at `A = never`, `B = number`, `never` is assignable to
`number`, yet the subtype conditional of `IfSub`/`Sub` does not resolve to
`true` (a conditional type distributes over the empty union and evaluates to
`never`) and `Sub<never, number>` is uninhabited, refuting the claimed
equivalence with assignability. -/
theorem claim2_counterexample :
    ¬ (((mutAsg (IfSub .never .num .tru .fls) .tru = true) ↔
          (assignable .never .num = true)) ∧
        ((inhab (Sub .never .num) = true) ↔
          (assignable .never .num = true))) := by
  decide

/-- C2 (amended): the subtype predicate resolves to its Yes outcome, and
`Sub<A, B>` is inhabited, exactly when `A` is assignable to `B` and `A` has
at least one union constituent (i.e. `A` is not `never`); in particular
`Sub<number, number | string>` is inhabited and
`Sub<number | string, number>` is not. -/
theorem claim2_sub (A B : Ty) :
    ((mutAsg (IfSub A B .tru .fls) .tru = true) ↔
        (assignable A B = true ∧ constituents A ≠ [])) ∧
    ((inhab (Sub A B) = true) ↔
        (assignable A B = true ∧ constituents A ≠ [])) ∧
    inhab (Sub .num (.union .num .str)) = true ∧
    inhab (Sub (.union .num .str) .num) = false := by
  refine ⟨?_, ?_, by decide, by decide⟩
  · rw [show IfSub A B .tru .fls = extendsDist A B .tru .fls from rfl, extT_iff]
    tauto
  · rw [Sub_inhab_iff]
    tauto

/-- C3: the `Eq<A, B>` witness is constructible (an instantiation of the
generic `refl` fits it), and the equality predicate `IfEq<A, B>` resolves to
its Yes outcome, exactly when `A` and `B` are mutually assignable. -/
theorem claim3_eq (A B : Ty) :
    ((inhab (EqW A B) = true) ↔
        (assignable A B = true ∧ assignable B A = true)) ∧
    ((∃ T, reflFits T A B = true) ↔
        (assignable A B = true ∧ assignable B A = true)) ∧
    ((mutAsg (IfEq A B .tru .fls) .tru = true) ↔
        (assignable A B = true ∧ assignable B A = true)) := by
  have hm : mutAsg A B = true ↔ (assignable A B = true ∧ assignable B A = true) :=
    Iff.of_eq (Bool.and_eq_true _ _)
  refine ⟨by rw [EqW_inhab]; exact hm, ?_, ?_⟩
  · rw [← wit_inhab_iff_reflFits]
    exact hm
  · rw [IfEq_eq, ← hm]
    cases h : mutAsg A B
    · simp [h, mutAsg_fls_tru]
    · simp [h, mutAsg_tru_tru]

/-- C4 counterexample: at `A = never`, `B = number`, neither
`StrictSub<A, B>` nor `NotStrictSub<A, B>` is inhabited, so `NotStrictSub` is
not the complement of `StrictSub`. -/
theorem claim4_counterexample :
    ¬ ((inhab (NotStrictSub .never .num) = true) ↔
        (inhab (StrictSub .never .num) = false)) := by
  decide

/-- C4 (amended): an inhabited `NotStrictSub<A, B>` always implies an
uninhabited `StrictSub<A, B>`, and on pairs whose two sides each have exactly
one union constituent the two proof types are exact complements. -/
theorem claim4_notStrictSub (A B : Ty) :
    (inhab (NotStrictSub A B) = true → inhab (StrictSub A B) = false) ∧
    ((constituents A).length = 1 → (constituents B).length = 1 →
      ((inhab (NotStrictSub A B) = true) ↔ (inhab (StrictSub A B) = false))) := by
  constructor
  · intro h
    cases hs : inhab (StrictSub A B)
    · rfl
    · exfalso
      rw [show inhab (NotStrictSub A B)
            = (inhab (Sub B A) || inhab (Disjoint A B)) from rfl,
          Bool.or_eq_true] at h
      rcases h with h | h
      · rw [show inhab (StrictSub A B)
              = (inhab (Sub A B) && inhab (NotEq A B)) from rfl,
            Bool.and_eq_true] at hs
        obtain ⟨-, hAB⟩ := (Sub_inhab_iff A B).1 hs.1
        obtain ⟨-, hBA⟩ := (Sub_inhab_iff B A).1 h
        have hne := hs.2
        rw [NotEq_inhab_eq, mutAsg, hAB, hBA] at hne
        exact Bool.noConfusion hne
      · exact ex_ss_dj A B hs h
  · intro hA hB
    obtain ⟨a, ha⟩ := List.length_eq_one.1 hA
    obtain ⟨b, hb⟩ := List.length_eq_one.1 hB
    have e1 := asg_single A B a ha
    have e2 := asg_single B A b hb
    rw [show inhab (NotStrictSub A B)
          = (inhab (Sub B A) || (inhab (NotSub A B) && inhab (NotSub B A))) from rfl,
        show inhab (StrictSub A B)
          = (inhab (Sub A B) && inhab (NotEq A B)) from rfl,
        NotEq_inhab_eq, mutAsg, e1, e2,
        Sub_inhab_single A B a ha, Sub_inhab_single B A b hb,
        NotSub_inhab_single A B a ha, NotSub_inhab_single B A b hb]
    cases hx : assignable a B <;> cases hy : assignable b A <;> simp

/-- C4 witness: a concrete instance of each amended part, at
`(number, 3)` for the implication and at `(3, number)` for the
single-constituent equivalence. -/
theorem claim4_witness :
    inhab (StrictSub .num (.numLit 3)) = false ∧
      ((inhab (NotStrictSub (.numLit 3) .num) = true) ↔
        (inhab (StrictSub (.numLit 3) .num) = false)) :=
  ⟨(claim4_notStrictSub .num (.numLit 3)).1 (by decide),
   (claim4_notStrictSub (.numLit 3) .num).2 (by decide) (by decide)⟩

/-- C5 counterexample: at `A = number | string`, `B = number | true`,
neither the subtype nor the supertype predicate resolves to Yes, yet the
direct disjointness predicate `IfDisjoint` also does not resolve to Yes,
refuting the claimed characterization. -/
theorem claim5_counterexample :
    ¬ ((mutAsg (IfDisjoint (.union .num .str) (.union .num .tru) .tru .fls) .tru
          = true) ↔
        (¬ (mutAsg (IfSub (.union .num .str) (.union .num .tru) .tru .fls) .tru
              = true) ∧
         ¬ (mutAsg (IfSuper (.union .num .str) (.union .num .tru) .tru .fls) .tru
              = true))) := by
  decide

/-- C5 (amended): the direct `IfDisjoint` predicate agrees with the composed
`Disjoint<A, B> = NotSub<A, B> & NotSuper<A, B>` on inhabitation at every
pair, and on pairs whose two sides each have exactly one union constituent it
resolves to Yes exactly when neither the subtype nor the supertype predicate
resolves to Yes. -/
theorem claim5_disjoint (A B : Ty) :
    ((mutAsg (IfDisjoint A B .tru .fls) .tru = true) ↔
        (inhab (Disjoint A B) = true)) ∧
    ((constituents A).length = 1 → (constituents B).length = 1 →
      ((mutAsg (IfDisjoint A B .tru .fls) .tru = true) ↔
        (¬ (mutAsg (IfSub A B .tru .fls) .tru = true) ∧
         ¬ (mutAsg (IfSuper A B .tru .fls) .tru = true)))) := by
  refine ⟨disjoint_agree A B, ?_⟩
  intro hA hB
  obtain ⟨a, ha⟩ := List.length_eq_one.1 hA
  obtain ⟨b, hb⟩ := List.length_eq_one.1 hB
  have s1 : mutAsg (IfSub A B .tru .fls) .tru = assignable a B :=
    Sub_inhab_single A B a ha
  have s2 : mutAsg (IfSuper A B .tru .fls) .tru = assignable b A :=
    Sub_inhab_single B A b hb
  have d1 : inhab (Disjoint A B) = (!(assignable a B) && !(assignable b A)) := by
    rw [show inhab (Disjoint A B)
          = (inhab (NotSub A B) && inhab (NotSub B A)) from rfl,
        NotSub_inhab_single A B a ha, NotSub_inhab_single B A b hb]
  rw [disjoint_agree, d1, s1, s2]
  cases hx : assignable a B <;> cases hy : assignable b A <;> simp

/-- C5 witness: at the concrete disjoint single-constituent pair
`(number, string)` the direct predicate resolves to Yes and neither the
subtype nor the supertype predicate does. -/
theorem claim5_witness :
    (mutAsg (IfDisjoint .num .str .tru .fls) .tru = true) ↔
      (¬ (mutAsg (IfSub .num .str .tru .fls) .tru = true) ∧
       ¬ (mutAsg (IfSuper .num .str .tru .fls) .tru = true)) :=
  (claim5_disjoint .num .str).2 (by decide) (by decide)

/-- C6: inhabited witnesses `Eq<A, B>` and `Eq<B, C>` guarantee that
`Eq<A, C>` is inhabited (transitivity), and the value `trans` actually
returns is the fabricated `refl` itself, ignoring both arguments — a trusted
axiom rather than a constructive composition. -/
theorem claim6_trans :
    (∀ A B C : Ty, inhab (EqW A B) = true → inhab (EqW B C) = true →
        inhab (EqW A C) = true) ∧
    (∀ (α : Type) (p q : α → α), Leibniz.trans p q = Leibniz.refl) := by
  constructor
  · intro A B C h1 h2
    rw [EqW_inhab, mutAsg, Bool.and_eq_true] at h1 h2 ⊢
    exact ⟨asg_trans A B C h1.1 h2.1, asg_trans C B A h2.2 h1.2⟩
  · intro α p q
    rfl

/-- C6 witness: transitivity applied at three concrete mutually assignable
union types. -/
theorem claim6_trans_witness :
    inhab (EqW (.union .num .str) (.union .str (.union .num .never))) = true :=
  claim6_trans.1 (.union .num .str) (.union .str .num)
    (.union .str (.union .num .never)) (by decide) (by decide)

/-- C7: every named test function returns its proof argument unchanged, and
the inert doc parameter affects neither the returned value nor the declared
parameter proof type. -/
theorem claim7_test_functions :
    (∀ (α : Type) (A B : Ty) (d d' : String) (p : α),
        testEq A B d p = p ∧ testEq A B d p = testEq A B d' p ∧
          testEqParam A B d = testEqParam A B d') ∧
    (∀ (α : Type) (A B : Ty) (d d' : String) (p : α),
        testNotEq A B d p = p ∧ testNotEq A B d p = testNotEq A B d' p ∧
          testNotEqParam A B d = testNotEqParam A B d') ∧
    (∀ (α : Type) (A B : Ty) (d d' : String) (p : α),
        testSub A B d p = p ∧ testSub A B d p = testSub A B d' p ∧
          testSubParam A B d = testSubParam A B d') ∧
    (∀ (α : Type) (A B : Ty) (d d' : String) (p : α),
        testNotSub A B d p = p ∧ testNotSub A B d p = testNotSub A B d' p ∧
          testNotSubParam A B d = testNotSubParam A B d') ∧
    (∀ (α : Type) (A B : Ty) (d d' : String) (p : α),
        testStrictSub A B d p = p ∧
          testStrictSub A B d p = testStrictSub A B d' p ∧
          testStrictSubParam A B d = testStrictSubParam A B d') ∧
    (∀ (α : Type) (A B : Ty) (d d' : String) (p : α),
        testNotStrictSub A B d p = p ∧
          testNotStrictSub A B d p = testNotStrictSub A B d' p ∧
          testNotStrictSubParam A B d = testNotStrictSubParam A B d') ∧
    (∀ (α : Type) (A B : Ty) (d d' : String) (p : α),
        testSuper A B d p = p ∧ testSuper A B d p = testSuper A B d' p ∧
          testSuperParam A B d = testSuperParam A B d') ∧
    (∀ (α : Type) (A B : Ty) (d d' : String) (p : α),
        testNotSuper A B d p = p ∧
          testNotSuper A B d p = testNotSuper A B d' p ∧
          testNotSuperParam A B d = testNotSuperParam A B d') ∧
    (∀ (α : Type) (A B : Ty) (d d' : String) (p : α),
        testStrictSuper A B d p = p ∧
          testStrictSuper A B d p = testStrictSuper A B d' p ∧
          testStrictSuperParam A B d = testStrictSuperParam A B d') ∧
    (∀ (α : Type) (A B : Ty) (d d' : String) (p : α),
        testNotStrictSuper A B d p = p ∧
          testNotStrictSuper A B d p = testNotStrictSuper A B d' p ∧
          testNotStrictSuperParam A B d = testNotStrictSuperParam A B d') ∧
    (∀ (α : Type) (A B : Ty) (d d' : String) (p : α),
        testDisjoint A B d p = p ∧
          testDisjoint A B d p = testDisjoint A B d' p ∧
          testDisjointParam A B d = testDisjointParam A B d') :=
  ⟨fun _ _ _ _ _ _ => ⟨rfl, rfl, rfl⟩, fun _ _ _ _ _ _ => ⟨rfl, rfl, rfl⟩,
   fun _ _ _ _ _ _ => ⟨rfl, rfl, rfl⟩, fun _ _ _ _ _ _ => ⟨rfl, rfl, rfl⟩,
   fun _ _ _ _ _ _ => ⟨rfl, rfl, rfl⟩, fun _ _ _ _ _ _ => ⟨rfl, rfl, rfl⟩,
   fun _ _ _ _ _ _ => ⟨rfl, rfl, rfl⟩, fun _ _ _ _ _ _ => ⟨rfl, rfl, rfl⟩,
   fun _ _ _ _ _ _ => ⟨rfl, rfl, rfl⟩, fun _ _ _ _ _ _ => ⟨rfl, rfl, rfl⟩,
   fun _ _ _ _ _ _ => ⟨rfl, rfl, rfl⟩⟩

/-- C8: every named test function is the specialization of the generalized
`testRel` at its relation proof type: same returned value and same declared
parameter type. -/
theorem claim8_testRel :
    (∀ (α : Type) (A B : Ty) (d : String) (p : α),
        testEq A B d p = testRel (EqW A B) d p ∧
          testEqParam A B d = testRelParam (EqW A B) d) ∧
    (∀ (α : Type) (A B : Ty) (d : String) (p : α),
        testNotEq A B d p = testRel (NotEq A B) d p ∧
          testNotEqParam A B d = testRelParam (NotEq A B) d) ∧
    (∀ (α : Type) (A B : Ty) (d : String) (p : α),
        testSub A B d p = testRel (Sub A B) d p ∧
          testSubParam A B d = testRelParam (Sub A B) d) ∧
    (∀ (α : Type) (A B : Ty) (d : String) (p : α),
        testNotSub A B d p = testRel (NotSub A B) d p ∧
          testNotSubParam A B d = testRelParam (NotSub A B) d) ∧
    (∀ (α : Type) (A B : Ty) (d : String) (p : α),
        testStrictSub A B d p = testRel (StrictSub A B) d p ∧
          testStrictSubParam A B d = testRelParam (StrictSub A B) d) ∧
    (∀ (α : Type) (A B : Ty) (d : String) (p : α),
        testNotStrictSub A B d p = testRel (NotStrictSub A B) d p ∧
          testNotStrictSubParam A B d = testRelParam (NotStrictSub A B) d) ∧
    (∀ (α : Type) (A B : Ty) (d : String) (p : α),
        testSuper A B d p = testRel (Super A B) d p ∧
          testSuperParam A B d = testRelParam (Super A B) d) ∧
    (∀ (α : Type) (A B : Ty) (d : String) (p : α),
        testNotSuper A B d p = testRel (NotSuper A B) d p ∧
          testNotSuperParam A B d = testRelParam (NotSuper A B) d) ∧
    (∀ (α : Type) (A B : Ty) (d : String) (p : α),
        testStrictSuper A B d p = testRel (StrictSuper A B) d p ∧
          testStrictSuperParam A B d = testRelParam (StrictSuper A B) d) ∧
    (∀ (α : Type) (A B : Ty) (d : String) (p : α),
        testNotStrictSuper A B d p = testRel (NotStrictSuper A B) d p ∧
          testNotStrictSuperParam A B d = testRelParam (NotStrictSuper A B) d) ∧
    (∀ (α : Type) (A B : Ty) (d : String) (p : α),
        testDisjoint A B d p = testRel (Disjoint A B) d p ∧
          testDisjointParam A B d = testRelParam (Disjoint A B) d) :=
  ⟨fun _ _ _ _ _ => ⟨rfl, rfl⟩, fun _ _ _ _ _ => ⟨rfl, rfl⟩,
   fun _ _ _ _ _ => ⟨rfl, rfl⟩, fun _ _ _ _ _ => ⟨rfl, rfl⟩,
   fun _ _ _ _ _ => ⟨rfl, rfl⟩, fun _ _ _ _ _ => ⟨rfl, rfl⟩,
   fun _ _ _ _ _ => ⟨rfl, rfl⟩, fun _ _ _ _ _ => ⟨rfl, rfl⟩,
   fun _ _ _ _ _ => ⟨rfl, rfl⟩, fun _ _ _ _ _ => ⟨rfl, rfl⟩,
   fun _ _ _ _ _ => ⟨rfl, rfl⟩⟩

/-- C9: extracting the forward conversion from the reflexivity witness gives
the identity conversion: `cast(refl)(x) = x` for every value `x`. -/
theorem claim9_cast_refl (α : Type) (x : α) :
    Leibniz.cast (Leibniz.refl) x = x := rfl

/-- C10: `trans` ignores both witness arguments and returns the identity
function, so `cast(trans(p, q))(x) = x` for every value, and `sub1` and
`sub2` likewise return the identity function regardless of their
arguments. -/
theorem claim10_trans_identity (α : Type) (p q : α → α) :
    (∀ x : α, Leibniz.cast (Leibniz.trans p q) x = x) ∧
    Leibniz.sub1 p q = (fun x : α => x) ∧
    Leibniz.sub2 p q = (fun x : α => x) :=
  ⟨fun _ => rfl, rfl, rfl⟩

end LeibnizTS
